import Mathlib

/-!
Verification development for the workflow orchestration engine and the
output extraction pipeline of this repository (src/main.py,
src/tools/code_extractor.py, src/tools/simple_tools.py).

Modelling conventions: program strings are lists of characters; the
regular expressions used by the extractor are transcribed into a small
abstract syntax and run by a backtracking matcher with Python `re`
semantics (DOTALL mode, leftmost non-overlapping matches, greedy and lazy
quantifiers); the filesystem is an in-memory association list from paths
to contents, so OS-level write failures are outside the model, and
`str(Path(p))` is modelled as `p` itself, which is exact for the plain
paths exercised here.
-/

namespace Clankers

/-- Program strings as explicit character lists. -/
abbrev Str := List Char

/-- Conversion from Lean string literals to program strings. -/
def str (s : String) : Str := s.data

/-- The ASCII whitespace characters recognized by Python's regex class
and by `str.strip()`. -/
def spaceChars : List Char := [' ', '\t', '\n', '\r', '\x0b', '\x0c']

/-- Whitespace test used by `strip` and the whitespace regex class. -/
def isSpaceChar (c : Char) : Bool := spaceChars.contains c

/-- Abstract syntax for the regular expressions appearing in
src/tools/code_extractor.py.  `cls neg cs` is a character class, negated
when `neg` is true (so `cls true []` is the DOTALL dot); `starG` and
`starL` are the greedy and lazy Kleene stars; `group` is a capturing
group. -/
inductive RE where
  | eps
  | ch (c : Char)
  | cls (neg : Bool) (cs : List Char)
  | seq (a b : RE)
  | starG (r : RE)
  | starL (r : RE)
  | group (idx : Nat) (r : RE)

/-- Captured groups of one match: group index paired with captured text. -/
abbrev Caps := List (Nat × Str)

/-- Backtracking regex matcher in continuation-passing style, anchored at
the start of the input.  Greedy stars first try to consume one more
repetition, lazy stars first try the continuation, exactly as Python's
backtracking engine does.  The fuel only bounds recursion depth (one unit
per sequencing step or star unfolding); every starred body in the
patterns below consumes at least one character per repetition, so the
allowance provided by `reMatch` is always sufficient. -/
def mrun : Nat → RE → Str → Caps → (Str → Caps → Option (Caps × Str)) → Option (Caps × Str)
  | 0, _, _, _, _ => none
  | fuel+1, re, s, caps, k =>
    match re with
    | .eps => k s caps
    | .ch c =>
      match s with
      | [] => none
      | c' :: t => if c' = c then k t caps else none
    | .cls neg cs =>
      match s with
      | [] => none
      | c' :: t => if (cs.contains c') != neg then k t caps else none
    | .seq a b => mrun fuel a s caps (fun t caps' => mrun fuel b t caps' k)
    | .starG r =>
      (mrun fuel r s caps (fun t caps' =>
        if t.length = s.length then none else mrun fuel (.starG r) t caps' k)).orElse
        (fun _ => k s caps)
    | .starL r =>
      (k s caps).orElse (fun _ =>
        mrun fuel r s caps (fun t caps' =>
          if t.length = s.length then none else mrun fuel (.starL r) t caps' k))
    | .group i r =>
      mrun fuel r s caps (fun t caps' => k t ((i, s.take (s.length - t.length)) :: caps'))

/-- Sequencing of a list of regex atoms. -/
def reSeq (l : List RE) : RE := l.foldr RE.seq RE.eps

/-- A literal string as a regex. -/
def reLit (s : Str) : RE := reSeq (s.map RE.ch)

/-- The regex whitespace star. -/
def reWs : RE := RE.starG (RE.cls false spaceChars)

/-- The DOTALL dot. -/
def reAny : RE := RE.cls true []

/-- The quote character class. -/
def reQuote : RE := RE.cls false ['"', '\'']

/-- The negated quote character class. -/
def reNotQuote : RE := RE.cls true ['"', '\'']

/-- Greedy plus. -/
def rePlusG (r : RE) : RE := RE.seq r (RE.starG r)

/-- Lazy plus. -/
def rePlusL (r : RE) : RE := RE.seq r (RE.starL r)

/-- One match attempt anchored at the start of `s`, returning captures and
the remaining input after the match. -/
def reMatch (re : RE) (s : Str) : Option (Caps × Str) :=
  mrun (s.length + 500) re s [] (fun rest caps => some (caps, rest))

/-- Python `re.finditer`: leftmost, non-overlapping matches, resuming
after the end of each match.  All patterns below match nonempty text, so
the fuel `length + 1` is sufficient. -/
def finditerAux : Nat → RE → Str → List Caps
  | 0, _, _ => []
  | fuel+1, re, s =>
    match reMatch re s with
    | some (caps, rest) => caps :: finditerAux fuel re rest
    | none =>
      match s with
      | [] => []
      | _ :: t => finditerAux fuel re t

/-- All matches of a pattern over an input, Python `re.finditer`. -/
def finditer (re : RE) (s : Str) : List Caps := finditerAux (s.length + 1) re s

/-- Python `re.search`: try each start position from the left. -/
def reSearch (re : RE) : Str → Option Caps
  | [] => (reMatch re []).map (fun r => r.1)
  | s@(_ :: t) =>
    match reMatch re s with
    | some (caps, _) => some caps
    | none => reSearch re t

/-- `match.group(n)`; every group of the patterns below participates in
each successful match, so the empty default is never observed. -/
def capGet (caps : Caps) (n : Nat) : Str :=
  match caps.find? (fun kv => kv.1 == n) with
  | some kv => kv.2
  | none => []

/-- Python `str.strip()`. -/
def pyStrip (s : Str) : Str :=
  ((s.dropWhile isSpaceChar).reverse.dropWhile isSpaceChar).reverse

/-- Python `str.startswith`. -/
def strStartsWith : Str → Str → Bool
  | _, [] => true
  | [], _ :: _ => false
  | c :: s, p :: ps => c == p && strStartsWith s ps

/-- Python `str.endswith`. -/
def strEndsWith (s suf : Str) : Bool := strStartsWith s.reverse suf.reverse

/-- Python `str.replace`, non-overlapping and left to right.  Both uses in
`_clean_content` have a nonempty pattern, so each step consumes at least
one character and the fuel `s.length` is sufficient. -/
def replaceAllAux : Nat → Str → Str → Str → Str
  | 0, s, _, _ => s
  | fuel+1, s, pat, rep =>
    match s with
    | [] => []
    | c :: t =>
      if strStartsWith s pat && !pat.isEmpty then
        rep ++ replaceAllAux fuel (s.drop pat.length) pat rep
      else c :: replaceAllAux fuel t pat rep

/-- Python `str.replace`. -/
def replaceAll (s pat rep : Str) : Str := replaceAllAux s.length s pat rep

/-- Python `str.split('\n')` (keeps empty pieces). -/
def splitNl : Str → List Str
  | [] => [[]]
  | c :: t =>
    if c = '\n' then [] :: splitNl t
    else
      match splitNl t with
      | [] => [[c]]
      | h :: r => (c :: h) :: r

/-- Python `'\n'.join(...)`. -/
def joinNl : List Str → Str
  | [] => []
  | [l] => l
  | l :: r => l ++ ('\n') :: joinNl r

/-- Pattern 1 of `CodeExtractor._extract_write_file_calls`: an explicit
call with a triple-quoted content payload. -/
def writeCallPat1 : RE := reSeq
  [ reLit (str ("write_file")), reWs, RE.ch '(', reWs, reLit (str ("file_path")), reWs,
    RE.ch '=', reWs, reQuote, RE.group 1 (rePlusG reNotQuote), reQuote, reWs, RE.ch ',',
    reWs, reLit (str ("content")), reWs, RE.ch '=', reWs, reLit (str ("\"\"\"")),
    RE.group 2 (RE.starL reAny), reLit (str ("\"\"\"")), reWs, RE.ch ')' ]

/-- Pattern 2 of `CodeExtractor._extract_write_file_calls`: an explicit
call with a single-delimited content payload. -/
def writeCallPat2 : RE := reSeq
  [ reLit (str ("write_file")), reWs, RE.ch '(', reWs, reLit (str ("file_path")), reWs,
    RE.ch '=', reWs, reQuote, RE.group 1 (rePlusG reNotQuote), reQuote, reWs, RE.ch ',',
    reWs, reLit (str ("content")), reWs, RE.ch '=', reWs, reQuote,
    RE.group 2 (rePlusL reAny), reQuote, reWs, RE.ch ')' ]

/-- The pattern of `CodeExtractor._extract_code_blocks_with_paths`: a
python fence whose first line is a path comment. -/
def codeBlockPat : RE := reSeq
  [ reLit (str ("```python")), reWs, RE.ch '\n', reWs, RE.ch '#', reWs,
    RE.group 1 (RE.seq (rePlusG (RE.cls true ['\n'])) (reLit (str (".py")))),
    reWs, RE.ch '\n', RE.group 2 (RE.starL reAny), reLit (str ("```")) ]

/-- The filename pattern searched inside header lines by
`CodeExtractor._extract_file_sections`. -/
def headerPat : RE := reSeq
  [ RE.cls false ['`', '('],
    RE.group 1 (RE.seq (rePlusG (RE.cls true ['`', ')'])) (reLit (str (".py")))),
    RE.cls false ['`', ')'] ]

/-- `CodeExtractor.PROTECTED_FILES`.  The source stores these in a set;
only Boolean membership and suffix tests are performed on it, so the
listed order is irrelevant. -/
def PROTECTED_FILES : List Str :=
  [ str ("main.py"), str ("agents/base_agent.py"), str ("agents/__init__.py"),
    str ("tools/__init__.py"), str ("tools/code_extractor.py"),
    str ("tools/simple_tools.py"), str ("tools/mcp_tool_wrapper.py"),
    str ("config/agents.yaml"), str ("config/models.yaml"),
    str ("config/settings.yaml"), str (".env"), str ("requirements.txt") ]

/-- The path normalization of `_write_file`:
`file_path.replace('\\', '/')`, a character-wise replacement. -/
def normalizePath (p : Str) : Str :=
  p.map (fun c => if c = '\\' then '/' else c)

/-- The protected-path guard of `_write_file`:
`normalized_path in PROTECTED_FILES or
 any(normalized_path.endswith(pf) for pf in PROTECTED_FILES)`. -/
def isProtectedPath (p : Str) : Bool :=
  let np := normalizePath p
  PROTECTED_FILES.contains np || PROTECTED_FILES.any (fun pf => strEndsWith np pf)

/-- The in-memory filesystem: an association list path ↦ content. -/
abbrev Fs := List (Str × Str)

/-- Filesystem lookup; `isSome` of this is `Path.exists()`. -/
def fsGet : Fs → Str → Option Str
  | [], _ => none
  | (q, c) :: r, p => if q = p then some c else fsGet r p

/-- Filesystem write, overwriting any previous content at the path. -/
def fsWrite : Fs → Str → Str → Fs
  | [], p, c => [(p, c)]
  | (q, d) :: r, p, c => if q = p then (p, c) :: r else (q, d) :: fsWrite r p c

/-- The extractor's mutable state (`files_created`, `files_modified`,
`errors`) together with the ambient filesystem it writes to. -/
structure ExtState where
  files_created : List Str
  files_modified : List Str
  errors : List Str
  fs : Fs
  deriving DecidableEq

/-- A fresh `CodeExtractor` over a given filesystem. -/
def initState (fs : Fs) : ExtState :=
  { files_created := [], files_modified := [], errors := [], fs := fs }

/-- `CodeExtractor._write_file`.  In-memory filesystem primitives cannot
fail, so the `except` branch of the source (filesystem write errors) is
unreachable in the model; parent-directory creation is a no-op. -/
def write_file (st : ExtState) (file_path content : Str) : ExtState :=
  if isProtectedPath file_path then
    { st with errors := st.errors ++ [str ("Skipping protected file: ") ++ file_path] }
  else
    let file_existed := (fsGet st.fs file_path).isSome
    let fs' := fsWrite st.fs file_path content
    if file_existed then
      { st with files_modified := st.files_modified ++ [file_path], fs := fs' }
    else
      { st with files_created := st.files_created ++ [file_path], fs := fs' }

/-- `CodeExtractor._clean_content`: strip, unescape the two quote
sequences, and drop a leading and trailing fence line if the content
starts with a fence. -/
def clean_content (content : Str) : Str :=
  let c1 := pyStrip content
  let c2 := replaceAll c1 (str ("\\\"")) (str ("\""))
  let c3 := replaceAll c2 (str ("\\'")) (str ("'"))
  if strStartsWith c3 (str ("```")) then
    let lines := splitNl c3
    let lines := if strStartsWith (lines.headD []) (str ("```")) then lines.drop 1 else lines
    let lines :=
      if !lines.isEmpty && pyStrip (lines.getLastD []) == str ("```") then lines.dropLast
      else lines
    joinNl lines
  else c3

/-- The writes performed by `_extract_write_file_calls` (strategy 1), in
order: all matches of pattern 1, then all matches of pattern 2; the path
is `group(1).strip()` and the content `_clean_content(group(2).strip())`. -/
def method1Candidates (output : Str) : List (Str × Str) :=
  ((finditer writeCallPat1 output) ++ (finditer writeCallPat2 output)).map
    (fun caps => (pyStrip (capGet caps 1), clean_content (pyStrip (capGet caps 2))))

/-- The writes performed by `_extract_code_blocks_with_paths`
(strategy 2): both groups stripped, no other normalization. -/
def method2Candidates (output : Str) : List (Str × Str) :=
  (finditer codeBlockPat output).map
    (fun caps => (pyStrip (capGet caps 1), pyStrip (capGet caps 2)))

/-- Relative index of the first line whose stripped form starts with a
fence (the `while not lines[j].strip().startswith('```')` loop). -/
def findFenceIdx : List Str → Option Nat
  | [] => none
  | l :: r =>
    if strStartsWith (pyStrip l) (str ("```")) then some 0
    else (findFenceIdx r).map (· + 1)

/-- Relative index of the first line whose stripped form is exactly the
closing fence (the `while not lines[code_end].strip() == '```'` loop). -/
def findCloseIdx : List Str → Option Nat
  | [] => none
  | l :: r =>
    if pyStrip l == str ("```") then some 0
    else (findCloseIdx r).map (· + 1)

/-- The scanning loop of `_extract_file_sections` over the split lines,
collecting the writes it performs.  The loop index strictly increases in
the source, so fuel `lines.length + 1` is sufficient; when no closing
fence exists, the source sets `i = len(lines)` and performs no write,
which ends the loop. -/
def sectionsLoop : Nat → List Str → Nat → List (Str × Str)
  | 0, _, _ => []
  | fuel+1, lines, i =>
    if i < lines.length then
      let line := lines.getD i []
      if strStartsWith (pyStrip line) (str ("####")) ||
          strStartsWith (pyStrip line) (str ("###")) then
        match reSearch headerPat line with
        | some caps =>
          let filename := capGet caps 1
          match findFenceIdx (lines.drop (i + 1)) with
          | some dj =>
            let code_start := i + 1 + dj + 1
            match findCloseIdx (lines.drop code_start) with
            | some dk =>
              (filename, joinNl ((lines.drop code_start).take dk)) ::
                sectionsLoop fuel lines (code_start + dk)
            | none => sectionsLoop fuel lines lines.length
          | none => sectionsLoop fuel lines (i + 1)
        | none => sectionsLoop fuel lines (i + 1)
      else sectionsLoop fuel lines (i + 1)
    else []

/-- The writes performed by `_extract_file_sections` (strategy 3): the
joined block lines are written verbatim under the header's filename. -/
def method3Candidates (output : Str) : List (Str × Str) :=
  let lines := splitNl output
  sectionsLoop (lines.length + 1) lines 0

/-- All candidate writes pooled in strategy order 1, 2, 3.  The source
interleaves regex iteration with the writes, but the matching reads only
the immutable input text, so pooling first and folding `_write_file`
afterwards is the same computation. -/
def extractionCandidates (output : Str) : List (Str × Str) :=
  method1Candidates output ++ method2Candidates output ++ method3Candidates output

/-- `CodeExtractor.extract_and_execute`: run the three strategies in
order, executing each recognized write. -/
def extract_and_execute (output : Str) (st : ExtState) : ExtState :=
  (extractionCandidates output).foldl (fun st pc => write_file st pc.1 pc.2) st

/-- `process_coder_output`: a fresh extractor applied over the ambient
filesystem. -/
def process_coder_output (output : Str) (fs : Fs) : ExtState :=
  extract_and_execute output (initState fs)

/-! ## Workflow engine (src/main.py) -/

/-- One workflow step record: the `name` and `agent` fields consumed by
`run_workflow`. -/
structure Step where
  name : String
  agent : String
  deriving DecidableEq

/-- The result dictionary of one step, restricted to the keys that
`execute_workflow_step` and `run_workflow` consume. -/
structure StepResult where
  specification : Option String := none
  architecture : Option String := none
  code : Option String := none
  summary : Option String := none
  files_created : List Str := []
  files_modified : List Str := []
  deriving DecidableEq

/-- The mutable context of one workflow run. -/
structure Context where
  user_requirement : Option String := none
  specification : Option String := none
  architecture : Option String := none
  code : Option String := none
  workflow_results : List (String × StepResult) := []
  deriving DecidableEq

/-- Python dictionary assignment for `workflow_results`. -/
def putResult : List (String × StepResult) → String → StepResult → List (String × StepResult)
  | [], n, r => [(n, r)]
  | (m, q) :: t, n, r => if m = n then (n, r) :: t else (m, q) :: putResult t n r

/-- One external collaborator call: the agent either raises an exception
or returns a result dictionary.  Which happens is the collaborator's
business; the engine is verified for every possible behavior. -/
abbrev AgentCall := Except String StepResult

/-- The body of the `try` block of `execute_workflow_step` for one agent
name: check the required context keys, perform the external call (which
may raise), and for the coder route the returned summary text through
`process_coder_output`.  A raised exception surfaces as `.error`; every
raise happens before any filesystem write (the extraction catches its
per-file errors internally), so the filesystem is unchanged on the error
path.  Looking up `result['summary']` on a dictionary without that key
raises a `KeyError`, modelled the same way. -/
def stepBody (call : AgentCall) (agent_name : String) (ctx : Context) (fs : Fs) :
    Except String (Option StepResult × Fs) :=
  if agent_name = "project_manager" then
    match ctx.user_requirement with
    | some _ => call.map (fun r => (some r, fs))
    | none => .ok (none, fs)
  else if agent_name = "architect" then
    match ctx.specification with
    | some _ => call.map (fun r => (some r, fs))
    | none => .ok (none, fs)
  else if agent_name = "coder" then
    match ctx.specification with
    | some _ =>
      match call with
      | .error e => .error e
      | .ok r =>
        match r.summary with
        | none => .error ("KeyError: summary")
        | some s =>
          let ex := process_coder_output (str s) fs
          .ok (some { r with files_created := ex.files_created,
                             files_modified := ex.files_modified }, ex.fs)
    | none => .ok (none, fs)
  else if agent_name = "tester" then
    match ctx.specification, ctx.code with
    | some _, some _ => call.map (fun r => (some r, fs))
    | _, _ => .ok (none, fs)
  else if agent_name = "reviewer" then
    match ctx.specification, ctx.code with
    | some _, some _ => call.map (fun r => (some r, fs))
    | _, _ => .ok (none, fs)
  else .ok (none, fs)

/-- `AgentOrchestrator.execute_workflow_step`: an uninitialized agent is
skipped before the `try` block; an exception raised inside the body is
caught by the `except` handler, logged, and turned into `None`. -/
def execute_workflow_step (agents : List String) (call : AgentCall)
    (agent_name : String) (ctx : Context) (fs : Fs) : Option StepResult × Fs :=
  if agents.contains agent_name then
    match stepBody call agent_name ctx fs with
    | .ok r => r
    | .error _ => (none, fs)
  else (none, fs)

/-- The context update performed by `run_workflow` after a step: a
produced result is recorded under `workflow_results` and its recognized
keys (`specification`, `architecture`, `code`/`summary`) are merged; a
skipped step leaves the context untouched. -/
def mergeResult (ctx : Context) (step_name : String) : Option StepResult → Context
  | none => ctx
  | some r =>
    let c := { ctx with workflow_results := putResult ctx.workflow_results step_name r }
    let c :=
      match r.specification with
      | some s => { c with specification := some s }
      | none => c
    let c :=
      match r.architecture with
      | some a => { c with architecture := some a }
      | none => c
    if r.code.isSome || r.summary.isSome then
      { c with code := some (r.code.getD (r.summary.getD (""))) }
    else c

/-- The step loop of `run_workflow`: execute each declared step once, in
declaration order, merging results into the context.  The oracle gives
the behavior of the external collaborator call made at each step index.
The third component of the result is the attempt trace: each attempted
step's name, in order, with the result it produced (`none` for a skipped
or failed step). -/
def runSteps (agents : List String) (oracle : Nat → AgentCall) :
    List Step → Nat → Context → Fs → Context × Fs × List (String × Option StepResult)
  | [], _, ctx, fs => (ctx, fs, [])
  | step :: rest, i, ctx, fs =>
    let r := execute_workflow_step agents (oracle i) step.agent ctx fs
    let rec' := runSteps agents oracle rest (i + 1) (mergeResult ctx step.name r.1) r.2
    (rec'.1, rec'.2.1, (step.name, r.1) :: rec'.2.2)

/-- Workflow lookup, `self.config['workflows'].get(workflow_name)`. -/
def lookupWorkflow (workflows : List (String × List Step)) (workflow_name : String) :
    Option (List Step) :=
  (workflows.find? (fun kv => kv.1 == workflow_name)).map (fun kv => kv.2)

/-- `AgentOrchestrator.run_workflow`: seed the context with the user
requirement and run the looked-up steps; an unknown workflow name runs
nothing.  The function is total for every oracle: no exception escapes
the run. -/
def run_workflow (workflows : List (String × List Step)) (agents : List String)
    (oracle : Nat → AgentCall) (workflow_name input : String) (fs : Fs) :
    Context × Fs × List (String × Option StepResult) :=
  match lookupWorkflow workflows workflow_name with
  | none => ({ user_requirement := some input }, fs, [])
  | some steps => runSteps agents oracle steps 0 { user_requirement := some input } fs

/-! ## The file sink of src/tools/simple_tools.py -/

/-- POSIX `Path.is_absolute()`. -/
def isAbsolutePath : Str → Bool
  | [] => false
  | c :: _ => c == '/'

/-- The path resolution of `WriteFileTool._run`: a relative path is
joined under the configured `base_directory` when one is set (the
`pathlib` join inserting a separator); an absolute path is used as-is. -/
def resolveToolPath (base : Option Str) (file_path : Str) : Str :=
  match base with
  | some b => if isAbsolutePath file_path then file_path else b ++ ('/') :: file_path
  | none => file_path

/-- `WriteFileTool._run`: resolve the path and write the content; the
tool performs no containment check against the base directory and no
protected-path check (in-memory writes cannot fail, so the `except`
branch is unreachable). -/
def writeFileToolRun (base : Option Str) (file_path content : Str) (fs : Fs) : Fs :=
  fsWrite fs (resolveToolPath base file_path) content

/-! ## Lemmas about the file sink -/

/-- The error message appended by the protected-path guard. -/
def protectedMsg (p : Str) : Str := str ("Skipping protected file: ") ++ p

lemma write_file_of_protected {p : Str} (h : isProtectedPath p = true)
    (st : ExtState) (c : Str) :
    write_file st p c = { st with errors := st.errors ++ [protectedMsg p] } := by
  simp [write_file, protectedMsg, h]

lemma write_file_of_not_protected {p : Str} (h : isProtectedPath p = false)
    (st : ExtState) (c : Str) :
    write_file st p c =
      if (fsGet st.fs p).isSome then
        { st with files_modified := st.files_modified ++ [p], fs := fsWrite st.fs p c }
      else
        { st with files_created := st.files_created ++ [p], fs := fsWrite st.fs p c } := by
  simp [write_file, h]

lemma fsGet_fsWrite (fs : Fs) (p c q : Str) :
    fsGet (fsWrite fs p c) q = if p = q then some c else fsGet fs q := by
  induction fs with
  | nil => simp [fsWrite, fsGet]
  | cons kv t ih =>
    obtain ⟨a, b⟩ := kv
    simp only [fsWrite]
    by_cases hap : a = p
    · subst hap
      simp only [if_pos rfl, fsGet]
      by_cases haq : a = q <;> simp [haq]
    · simp only [if_neg hap, fsGet, ih]
      by_cases haq : a = q
      · have hpq : ¬ p = q := fun h => hap (haq.trans h.symm)
        simp [haq, hpq]
      · simp [haq]

/-- The filesystem component of one `_write_file` call. -/
lemma write_file_fs (st : ExtState) (p c : Str) :
    (write_file st p c).fs =
      if isProtectedPath p = true then st.fs else fsWrite st.fs p c := by
  by_cases hp : isProtectedPath p = true
  · simp [write_file_of_protected hp, hp]
  · rw [write_file_of_not_protected (by simpa using hp)]
    split <;> simp [hp]

lemma write_file_fsGet_ne {q p : Str} (h : q ≠ p) (st : ExtState) (c : Str) :
    fsGet (write_file st q c).fs p = fsGet st.fs p := by
  rw [write_file_fs]
  split
  · rfl
  · rw [fsGet_fsWrite, if_neg h]

lemma write_file_fsGet_self {p : Str} (h : isProtectedPath p = false)
    (st : ExtState) (c : Str) :
    fsGet (write_file st p c).fs p = some c := by
  rw [write_file_fs, if_neg (by simp [h]), fsGet_fsWrite, if_pos rfl]

lemma write_file_errors_mono {e : Str} {st : ExtState} (h : e ∈ st.errors)
    (p c : Str) : e ∈ (write_file st p c).errors := by
  by_cases hp : isProtectedPath p = true
  · rw [write_file_of_protected hp]
    simp [h]
  · rw [write_file_of_not_protected (by simpa using hp)]
    split <;> simpa using h

lemma write_file_created_mono {q : Str} {st : ExtState} (h : q ∈ st.files_created)
    (p c : Str) : q ∈ (write_file st p c).files_created := by
  by_cases hp : isProtectedPath p = true
  · rw [write_file_of_protected hp]
    simpa using h
  · rw [write_file_of_not_protected (by simpa using hp)]
    split <;> simp [h]

lemma write_file_modified_mono {q : Str} {st : ExtState} (h : q ∈ st.files_modified)
    (p c : Str) : q ∈ (write_file st p c).files_modified := by
  by_cases hp : isProtectedPath p = true
  · rw [write_file_of_protected hp]
    simpa using h
  · rw [write_file_of_not_protected (by simpa using hp)]
    split <;> simp [h]

lemma write_file_exists_mono {q : Str} {st : ExtState}
    (h : (fsGet st.fs q).isSome = true) (p c : Str) :
    (fsGet (write_file st p c).fs q).isSome = true := by
  rw [write_file_fs]
  split
  · exact h
  · rw [fsGet_fsWrite]
    split <;> simp [h]

/-- Invariance of everything but the error list at a protected path: no
write, whatever its target, changes the filesystem content or the
created/modified classification at a protected path. -/
lemma write_file_protected_invariant {p : Str} (hp : isProtectedPath p = true)
    (st : ExtState) (q c : Str) :
    fsGet (write_file st q c).fs p = fsGet st.fs p ∧
    (p ∈ (write_file st q c).files_created ↔ p ∈ st.files_created) ∧
    (p ∈ (write_file st q c).files_modified ↔ p ∈ st.files_modified) := by
  by_cases hq : isProtectedPath q = true
  · simp [write_file_of_protected hq]
  · have hqp : q ≠ p := by
      intro h
      rw [h, hp] at hq
      exact hq rfl
    have hpq : ¬ p = q := fun h => hqp h.symm
    rw [write_file_of_not_protected (by simpa using hq)]
    split <;> simp [fsGet_fsWrite, hqp, hpq, List.mem_append]

/-! ## Lemmas about folding the sink over candidate lists -/

/-- Folding `_write_file` over a list of candidate writes, the shape of
`extract_and_execute`. -/
def applyAll (cands : List (Str × Str)) (st : ExtState) : ExtState :=
  cands.foldl (fun st pc => write_file st pc.1 pc.2) st

lemma extract_and_execute_eq_applyAll (output : Str) (st : ExtState) :
    extract_and_execute output st = applyAll (extractionCandidates output) st := rfl

@[simp] lemma applyAll_nil (st : ExtState) : applyAll [] st = st := rfl

@[simp] lemma applyAll_cons (p c : Str) (t : List (Str × Str)) (st : ExtState) :
    applyAll ((p, c) :: t) st = applyAll t (write_file st p c) := rfl

lemma applyAll_errors_mono {e : Str} :
    ∀ (cands : List (Str × Str)) (st : ExtState), e ∈ st.errors →
      e ∈ (applyAll cands st).errors
  | [], _, h => h
  | (p, c) :: t, st, h =>
    applyAll_errors_mono t (write_file st p c) (write_file_errors_mono h p c)

lemma applyAll_created_mono {q : Str} :
    ∀ (cands : List (Str × Str)) (st : ExtState), q ∈ st.files_created →
      q ∈ (applyAll cands st).files_created
  | [], _, h => h
  | (p, c) :: t, st, h =>
    applyAll_created_mono t (write_file st p c) (write_file_created_mono h p c)

lemma applyAll_modified_mono {q : Str} :
    ∀ (cands : List (Str × Str)) (st : ExtState), q ∈ st.files_modified →
      q ∈ (applyAll cands st).files_modified
  | [], _, h => h
  | (p, c) :: t, st, h =>
    applyAll_modified_mono t (write_file st p c) (write_file_modified_mono h p c)

lemma applyAll_exists_mono {q : Str} :
    ∀ (cands : List (Str × Str)) (st : ExtState), (fsGet st.fs q).isSome = true →
      (fsGet (applyAll cands st).fs q).isSome = true
  | [], _, h => h
  | (p, c) :: t, st, h =>
    applyAll_exists_mono t (write_file st p c) (write_file_exists_mono h p c)

/-- Every candidate targeting a protected path contributes its error
entry to the final error list. -/
lemma applyAll_protected_error {p c : Str} (hp : isProtectedPath p = true) :
    ∀ (cands : List (Str × Str)) (st : ExtState), (p, c) ∈ cands →
      protectedMsg p ∈ (applyAll cands st).errors := by
  intro cands
  induction cands with
  | nil => intro st h; cases h
  | cons hd t ih =>
    intro st hmem
    obtain ⟨q, d⟩ := hd
    rcases List.mem_cons.mp hmem with heq | ht
    · obtain ⟨hq, hd'⟩ := Prod.mk.injEq .. ▸ heq
      subst hq
      rw [applyAll_cons]
      exact applyAll_errors_mono t _
        (by rw [write_file_of_protected hp]; simp)
    · exact ih (write_file st q d) ht

/-- A protected path is never written and never classified: the
filesystem content and the created/modified lists at that path are those
of the initial state. -/
lemma applyAll_protected_invariant {p : Str} (hp : isProtectedPath p = true) :
    ∀ (cands : List (Str × Str)) (st : ExtState),
      fsGet (applyAll cands st).fs p = fsGet st.fs p ∧
      (p ∈ (applyAll cands st).files_created ↔ p ∈ st.files_created) ∧
      (p ∈ (applyAll cands st).files_modified ↔ p ∈ st.files_modified)
  | [], st => ⟨rfl, Iff.rfl, Iff.rfl⟩
  | (q, c) :: t, st => by
    rw [applyAll_cons]
    have h1 := applyAll_protected_invariant hp t (write_file st q c)
    have h2 := write_file_protected_invariant hp st q c
    exact ⟨h1.1.trans h2.1, h1.2.1.trans h2.2.1, h1.2.2.trans h2.2.2⟩

/-- Boolean test selecting the candidates that target a given path. -/
def pathEq (p : Str) : (Str × Str) → Bool := fun pc => pc.1 = p

@[simp] lemma pathEq_iff (p : Str) (pc : Str × Str) :
    pathEq p pc = true ↔ pc.1 = p := by
  simp [pathEq]

/-- Last-write-wins at a non-protected path: after the fold, the content
at the path is that of the last candidate targeting it, or the initial
content when no candidate targets it. -/
lemma applyAll_fsGet_of_not_protected {p : Str} (hp : isProtectedPath p = false) :
    ∀ (cands : List (Str × Str)) (st : ExtState),
      fsGet (applyAll cands st).fs p =
        match (cands.filter (pathEq p)).getLast? with
        | some pc => some pc.2
        | none => fsGet st.fs p
  | [], st => by simp
  | (q, c) :: t, st => by
    rw [applyAll_cons, applyAll_fsGet_of_not_protected hp t (write_file st q c)]
    by_cases hqp : q = p
    · subst hqp
      rw [List.filter_cons_of_pos (by simp)]
      cases hft : (t.filter (pathEq q)).getLast? with
      | none =>
        have : t.filter (pathEq q) = [] := by
          simpa using hft
        simp [this, write_file_fsGet_self hp]
      | some pc =>
        have hne : t.filter (pathEq q) ≠ [] := by
          intro h
          rw [h] at hft
          cases hft
        obtain ⟨b, l, hbl⟩ := List.exists_cons_of_ne_nil hne
        rw [hbl]
        rw [hbl] at hft
        simp [List.getLast?_cons_cons, hft]
    · rw [List.filter_cons_of_neg (by simp [hqp])]
      cases hft : (t.filter (pathEq p)).getLast? <;>
        simp [hft, write_file_fsGet_ne hqp]

/-- Any path in the final created list was either already there or is
the non-protected target of some candidate. -/
lemma applyAll_created_origin {q : Str} :
    ∀ (cands : List (Str × Str)) (st : ExtState),
      q ∈ (applyAll cands st).files_created →
      q ∈ st.files_created ∨ (isProtectedPath q = false ∧ ∃ c, (q, c) ∈ cands)
  | [], _, h => .inl h
  | (a, d) :: t, st, h => by
    rw [applyAll_cons] at h
    rcases applyAll_created_origin t (write_file st a d) h with h1 | h2
    · by_cases hp : isProtectedPath a = true
      · rw [write_file_of_protected hp] at h1
        exact .inl h1
      · rw [write_file_of_not_protected (by simpa using hp)] at h1
        by_cases hex : (fsGet st.fs a).isSome = true
        · rw [if_pos hex] at h1
          exact .inl h1
        · rw [if_neg hex] at h1
          simp only [List.mem_append, List.mem_singleton] at h1
          rcases h1 with h1 | rfl
          · exact .inl h1
          · exact .inr ⟨by simpa using hp, d, List.mem_cons_self _ _⟩
    · exact .inr ⟨h2.1, h2.2.choose, List.mem_cons_of_mem _ h2.2.choose_spec⟩

/-- A non-protected candidate path that already exists in the filesystem
is classified as modified by the run. -/
lemma applyAll_modified_hit {q : Str} (hq : isProtectedPath q = false) :
    ∀ (cands : List (Str × Str)) (st : ExtState) (c : Str),
      (q, c) ∈ cands → (fsGet st.fs q).isSome = true →
      q ∈ (applyAll cands st).files_modified
  | [], _, _, hmem, _ => absurd hmem (List.not_mem_nil _)
  | (a, d) :: t, st, c, hmem, hex => by
    rw [applyAll_cons]
    by_cases haq : a = q
    · subst haq
      have hmod : a ∈ (write_file st a d).files_modified := by
        rw [write_file_of_not_protected hq, if_pos hex]
        simp
      exact applyAll_modified_mono t _ hmod
    · have hmem' : (q, c) ∈ t := by
        rcases List.mem_cons.mp hmem with he | ht
        · cases he
          exact absurd rfl haq
        · exact ht
      exact applyAll_modified_hit hq t (write_file st a d) c hmem'
        (write_file_exists_mono hex a d)

/-! ## The protected-suffix test survives path normalization -/

lemma strStartsWith_refl : ∀ l : Str, strStartsWith l l = true
  | [] => rfl
  | c :: t => by simp [strStartsWith, strStartsWith_refl t]

lemma strEndsWith_refl (l : Str) : strEndsWith l l = true :=
  strStartsWith_refl l.reverse

lemma strStartsWith_map_fixed {f : Char → Char} :
    ∀ {l q : Str}, strStartsWith l q = true → (∀ c ∈ q, f c = c) →
      strStartsWith (l.map f) q = true
  | l, [], _, _ => by cases l <;> rfl
  | [], _ :: _, h, _ => by simp [strStartsWith] at h
  | c :: l, d :: q, h, hf => by
    simp only [strStartsWith, Bool.and_eq_true, beq_iff_eq] at h
    obtain ⟨hcd, hrest⟩ := h
    simp only [List.map_cons, strStartsWith, Bool.and_eq_true, beq_iff_eq]
    refine ⟨?_, strStartsWith_map_fixed hrest (fun e he => hf e (List.mem_cons_of_mem _ he))⟩
    rw [hcd]
    exact hf d (List.mem_cons_self _ _)

/-- A suffix containing no backslash is preserved by the backslash
normalization of `_write_file`. -/
lemma normalizePath_endsWith {p pf : Str} (h : strEndsWith p pf = true)
    (hf : ∀ c ∈ pf, c ≠ '\\') :
    strEndsWith (normalizePath p) pf = true := by
  unfold strEndsWith normalizePath at *
  rw [← List.map_reverse]
  refine strStartsWith_map_fixed h (fun c hc => ?_)
  rw [if_neg (hf c (List.mem_reverse.mp hc))]

/-- The condition of claim C1 (membership in the protected set, or a raw
character-suffix match with one of its entries) implies the guard of
`_write_file` fires: no entry of the set contains a backslash, so the
normalization cannot defeat the match. -/
lemma isProtectedPath_of_claim {p : Str}
    (h : p ∈ PROTECTED_FILES ∨ ∃ pf ∈ PROTECTED_FILES, strEndsWith p pf = true) :
    isProtectedPath p = true := by
  have hyp : ∃ pf ∈ PROTECTED_FILES, strEndsWith p pf = true := by
    rcases h with h | h
    · exact ⟨p, h, strEndsWith_refl p⟩
    · exact h
  obtain ⟨pf, hmem, hend⟩ := hyp
  have hnb : ∀ c ∈ pf, c ≠ '\\' := by
    have hall : ∀ q ∈ PROTECTED_FILES, ∀ c ∈ q, c ≠ '\\' := by decide
    exact hall pf hmem
  have hend' : strEndsWith (normalizePath p) pf = true :=
    normalizePath_endsWith hend hnb
  simp only [isProtectedPath, Bool.or_eq_true, List.any_eq_true]
  exact Or.inr ⟨pf, hmem, hend'⟩

@[simp] lemma initState_fs (fs : Fs) : (initState fs).fs = fs := rfl

@[simp] lemma initState_created (fs : Fs) : (initState fs).files_created = [] := rfl

@[simp] lemma initState_modified (fs : Fs) : (initState fs).files_modified = [] := rfl

@[simp] lemma initState_errors (fs : Fs) : (initState fs).errors = [] := rfl

lemma process_coder_output_eq (output : Str) (fs : Fs) :
    process_coder_output output fs =
      applyAll (extractionCandidates output) (initState fs) := rfl

/-- The attempt trace of the step loop lists exactly the declared step
names, in declaration order. -/
lemma runSteps_trace_names (agents : List String) (oracle : Nat → AgentCall) :
    ∀ (steps : List Step) (i : Nat) (ctx : Context) (fs : Fs),
      ((runSteps agents oracle steps i ctx fs).2.2).map Prod.fst = steps.map Step.name
  | [], _, _, _ => rfl
  | step :: rest, i, ctx, fs => by
    simp only [runSteps, List.map_cons]
    rw [runSteps_trace_names agents oracle rest]

/-! ## Claim C1 -/

/-- Claim C1: for every input text and every extraction candidate whose
path is in the protected set, or whose path ends (as a character string)
with one of its entries, the pipeline performs no file mutation at that
path — the filesystem content at the path is unchanged and the path
appears in neither the created nor the modified list — and an error
entry naming the path is appended to the error list. -/
theorem protected_candidate_never_written (output : Str) (fs0 : Fs) (p c : Str)
    (hcand : (p, c) ∈ extractionCandidates output)
    (hprot : p ∈ PROTECTED_FILES ∨ ∃ pf ∈ PROTECTED_FILES, strEndsWith p pf = true) :
    fsGet (extract_and_execute output (initState fs0)).fs p = fsGet fs0 p ∧
    p ∉ (extract_and_execute output (initState fs0)).files_created ∧
    p ∉ (extract_and_execute output (initState fs0)).files_modified ∧
    str ("Skipping protected file: ") ++ p ∈
      (extract_and_execute output (initState fs0)).errors := by
  have hp : isProtectedPath p = true := isProtectedPath_of_claim hprot
  rw [extract_and_execute_eq_applyAll]
  have hinv := applyAll_protected_invariant hp (extractionCandidates output) (initState fs0)
  refine ⟨hinv.1, ?_, ?_, ?_⟩
  · intro hmem
    exact absurd (hinv.2.1.mp hmem) (List.not_mem_nil p)
  · intro hmem
    exact absurd (hinv.2.2.mp hmem) (List.not_mem_nil p)
  · exact applyAll_protected_error hp _ _ hcand

/-- Witness for C1: the protected dependency manifest
`requirements.txt`, declared by an explicit call, is never written and
produces the error entry. -/
theorem protected_candidate_never_written_witness :
    ((str ("requirements.txt"), str ("x")) ∈
        extractionCandidates
          (str ("write_file(file_path=\"requirements.txt\", content=\"x\")")) ∧
      str ("requirements.txt") ∈ PROTECTED_FILES) ∧
    (fsGet (extract_and_execute
        (str ("write_file(file_path=\"requirements.txt\", content=\"x\")"))
        (initState [])).fs (str ("requirements.txt")) =
      fsGet [] (str ("requirements.txt")) ∧
    str ("requirements.txt") ∉ (extract_and_execute
        (str ("write_file(file_path=\"requirements.txt\", content=\"x\")"))
        (initState [])).files_created ∧
    str ("requirements.txt") ∉ (extract_and_execute
        (str ("write_file(file_path=\"requirements.txt\", content=\"x\")"))
        (initState [])).files_modified ∧
    str ("Skipping protected file: ") ++ str ("requirements.txt") ∈
      (extract_and_execute
        (str ("write_file(file_path=\"requirements.txt\", content=\"x\")"))
        (initState [])).errors) :=
  ⟨⟨by decide, by decide⟩,
    protected_candidate_never_written
      (str ("write_file(file_path=\"requirements.txt\", content=\"x\")")) []
      (str ("requirements.txt")) (str ("x")) (by decide) (Or.inl (by decide))⟩

/-! ## Claim C5 -/

/-- Claim C5: when the same path is declared more than once, within one
strategy or across the three strategies, the final content of the target
file is the content of the last-pooled occurrence in strategy order
1 (explicit calls, pattern 1 then pattern 2), then 2 (fenced blocks with
path comments), then 3 (header sections) — not a merge.  Stated for
non-protected paths: a protected path is never written at all (claim
C1). -/
theorem duplicate_path_last_write_wins (output : Str) (fs0 : Fs) (p c : Str)
    (hnp : isProtectedPath p = false)
    (hmulti : 2 ≤ ((extractionCandidates output).filter (pathEq p)).length)
    (hlast : ((extractionCandidates output).filter (pathEq p)).getLast? = some (p, c)) :
    fsGet (extract_and_execute output (initState fs0)).fs p = some c := by
  rw [extract_and_execute_eq_applyAll, applyAll_fsGet_of_not_protected hnp, hlast]

/-- Witness for C5: `dup.py` is declared three times (strategy 1 pattern
1, strategy 1 pattern 2, strategy 2); the strategy-2 content `B` wins. -/
theorem duplicate_path_last_write_wins_witness :
    (isProtectedPath (str ("dup.py")) = false ∧
      2 ≤ ((extractionCandidates
          (str ("write_file(file_path=\"dup.py\", content=\"\"\"A\"\"\")\n```python\n# dup.py\nB\n```"))).filter
            (pathEq (str ("dup.py")))).length ∧
      ((extractionCandidates
          (str ("write_file(file_path=\"dup.py\", content=\"\"\"A\"\"\")\n```python\n# dup.py\nB\n```"))).filter
            (pathEq (str ("dup.py")))).getLast? = some (str ("dup.py"), str ("B"))) ∧
    fsGet (extract_and_execute
        (str ("write_file(file_path=\"dup.py\", content=\"\"\"A\"\"\")\n```python\n# dup.py\nB\n```"))
        (initState [])).fs (str ("dup.py")) = some (str ("B")) :=
  ⟨⟨by decide, by decide, by decide⟩,
    duplicate_path_last_write_wins _ [] _ _ (by decide) (by decide) (by decide)⟩

/-! ## Claim C8 -/

/-- Claim C8: running extraction-and-apply twice on the same generated
text starting from an empty project yields identical final file contents
after both runs, and every path classified as created in the first run
is classified as modified in the second run, the kind being decided by a
file-existence check made before each write. -/
theorem rerun_idempotent_and_reclassifies (output : Str) :
    (∀ p, fsGet (process_coder_output output (process_coder_output output []).fs).fs p =
        fsGet (process_coder_output output []).fs p) ∧
    (∀ p, p ∈ (process_coder_output output []).files_created →
        p ∈ (process_coder_output output (process_coder_output output []).fs).files_modified) := by
  constructor
  · intro p
    simp only [process_coder_output_eq]
    by_cases hp : isProtectedPath p = true
    · have h2 := applyAll_protected_invariant hp (extractionCandidates output)
        (initState (applyAll (extractionCandidates output) (initState [])).fs)
      simpa using h2.1
    · have hnp : isProtectedPath p = false := by simpa using hp
      rw [applyAll_fsGet_of_not_protected hnp, applyAll_fsGet_of_not_protected hnp]
      cases hft : ((extractionCandidates output).filter (pathEq p)).getLast? with
      | some pc => rfl
      | none =>
        simp only [initState_fs]
        rw [applyAll_fsGet_of_not_protected hnp, hft]
        exact rfl
  · intro p hmem
    simp only [process_coder_output_eq] at hmem ⊢
    rcases applyAll_created_origin _ _ hmem with h1 | ⟨hnp, c, hc⟩
    · exact absurd (by simpa using h1) (List.not_mem_nil p)
    · have hfilter : (p, c) ∈ (extractionCandidates output).filter (pathEq p) :=
        List.mem_filter.mpr ⟨hc, by simp⟩
      have hne : (extractionCandidates output).filter (pathEq p) ≠ [] :=
        List.ne_nil_of_mem hfilter
      have hex : (fsGet (applyAll (extractionCandidates output) (initState [])).fs p).isSome
          = true := by
        rw [applyAll_fsGet_of_not_protected hnp]
        cases hft : ((extractionCandidates output).filter (pathEq p)).getLast? with
        | some pc => rfl
        | none => exact absurd (by simpa using hft) hne
      exact applyAll_modified_hit hnp _ _ c hc (by simpa using hex)

/-- Witness for C8 on a concrete generated text: the content of `app.py`
agrees after both runs, and the path created by the first run is
classified as modified by the second. -/
theorem rerun_idempotent_and_reclassifies_witness :
    fsGet (process_coder_output
        (str ("write_file(file_path=\"app.py\", content=\"\"\"print('hi')\"\"\")"))
        (process_coder_output
          (str ("write_file(file_path=\"app.py\", content=\"\"\"print('hi')\"\"\")")) []).fs).fs
      (str ("app.py")) =
      fsGet (process_coder_output
        (str ("write_file(file_path=\"app.py\", content=\"\"\"print('hi')\"\"\")")) []).fs
        (str ("app.py")) ∧
    (str ("app.py") ∈ (process_coder_output
        (str ("write_file(file_path=\"app.py\", content=\"\"\"print('hi')\"\"\")")) []).files_created ∧
      str ("app.py") ∈ (process_coder_output
        (str ("write_file(file_path=\"app.py\", content=\"\"\"print('hi')\"\"\")"))
        (process_coder_output
          (str ("write_file(file_path=\"app.py\", content=\"\"\"print('hi')\"\"\")")) []).fs).files_modified) :=
  ⟨(rerun_idempotent_and_reclassifies
      (str ("write_file(file_path=\"app.py\", content=\"\"\"print('hi')\"\"\")"))).1
      (str ("app.py")),
    by decide,
    (rerun_idempotent_and_reclassifies
      (str ("write_file(file_path=\"app.py\", content=\"\"\"print('hi')\"\"\")"))).2
      (str ("app.py")) (by decide)⟩

/-! ## Claim C9 -/

/-- Claim C9: in every workflow run, each declared step is attempted
exactly once, in declaration order, with no reordering and no retry (the
attempt trace lists exactly the declared step names in order), and the
number of attempts producing a step result is at most the number of
declared steps. -/
theorem steps_attempted_once_in_order (workflows : List (String × List Step))
    (agents : List String) (oracle : Nat → AgentCall) (workflow_name input : String)
    (fs : Fs) (steps : List Step)
    (hfound : lookupWorkflow workflows workflow_name = some steps) :
    ((run_workflow workflows agents oracle workflow_name input fs).2.2).map Prod.fst =
      steps.map Step.name ∧
    (((run_workflow workflows agents oracle workflow_name input fs).2.2).filter
        (fun e => e.2.isSome)).length ≤ steps.length := by
  unfold run_workflow
  rw [hfound]
  refine ⟨runSteps_trace_names agents oracle steps 0 _ fs, ?_⟩
  have hlen : ((runSteps agents oracle steps 0 { user_requirement := some input } fs).2.2).length
      = steps.length := by
    have := runSteps_trace_names agents oracle steps 0 { user_requirement := some input } fs
    calc ((runSteps agents oracle steps 0 { user_requirement := some input } fs).2.2).length
        = (((runSteps agents oracle steps 0 { user_requirement := some input } fs).2.2).map
            Prod.fst).length := (List.length_map _ _).symm
      _ = (steps.map Step.name).length := by rw [this]
      _ = steps.length := List.length_map _ _
  calc (((runSteps agents oracle steps 0 { user_requirement := some input } fs).2.2).filter
        (fun e => e.2.isSome)).length
      ≤ ((runSteps agents oracle steps 0 { user_requirement := some input } fs).2.2).length :=
        List.length_filter_le _ _
    _ = steps.length := hlen

/-- A concrete two-step workflow used as a witness input. -/
def demoSteps : List Step :=
  [Step.mk ("analyze") ("project_manager"), Step.mk ("implement") ("coder")]

/-- A workflow table holding the demo workflow. -/
def demoWorkflows : List (String × List Step) := [(("w"), demoSteps)]

/-- A collaborator that raises on every call. -/
def downOracle : Nat → AgentCall := fun _ => Except.error ("down")

/-- Witness for C9: the demo workflow run with every collaborator call
raising. -/
theorem steps_attempted_once_in_order_witness :
    lookupWorkflow demoWorkflows ("w") = some demoSteps ∧
    (((run_workflow demoWorkflows [] downOracle ("w") ("build it") []).2.2).map Prod.fst =
        demoSteps.map Step.name ∧
      (((run_workflow demoWorkflows [] downOracle ("w") ("build it") []).2.2).filter
          (fun e => e.2.isSome)).length ≤ demoSteps.length) :=
  ⟨rfl, steps_attempted_once_in_order demoWorkflows [] downOracle ("w") ("build it") []
    demoSteps rfl⟩

/-! ## Claim C6 -/

/-- Claim C6: a step whose agent call raises is caught inside the step
executor — the step yields no result and the filesystem is untouched —
and the workflow engine proceeds to the remaining declared steps with an
unchanged context; the run loop is a total function of the collaborator
behavior, so no error raised during a step or a file write propagates
out of the overall run call. -/
theorem failing_step_caught_and_skipped (agents : List String)
    (oracle : Nat → AgentCall) (step : Step) (rest : List Step) (i : Nat)
    (ctx : Context) (fs : Fs) (msg : String)
    (hraise : stepBody (oracle i) step.agent ctx fs = .error msg) :
    execute_workflow_step agents (oracle i) step.agent ctx fs = (none, fs) ∧
    runSteps agents oracle (step :: rest) i ctx fs =
      ((runSteps agents oracle rest (i + 1) ctx fs).1,
       (runSteps agents oracle rest (i + 1) ctx fs).2.1,
       (step.name, none) :: (runSteps agents oracle rest (i + 1) ctx fs).2.2) := by
  have hexec : execute_workflow_step agents (oracle i) step.agent ctx fs = (none, fs) := by
    unfold execute_workflow_step
    rw [hraise]
    split <;> rfl
  refine ⟨hexec, ?_⟩
  simp only [runSteps, hexec, mergeResult]

/-- A collaborator that raises on every call. -/
def boomOracle : Nat → AgentCall := fun _ => Except.error ("boom")

/-- The implementation step of the demo workflow. -/
def coderStep : Step := Step.mk ("implement") ("coder")

/-- A context holding a specification, so the coder step's agent call is
actually attempted. -/
def demoCtx : Context :=
  { user_requirement := some ("build"), specification := some ("spec") }

/-- Witness for C6: a raising coder call in a one-step workflow. -/
theorem failing_step_caught_and_skipped_witness :
    stepBody (boomOracle 0) coderStep.agent demoCtx [] = Except.error ("boom") ∧
    (execute_workflow_step [("coder")] (boomOracle 0) coderStep.agent demoCtx [] =
        (none, []) ∧
      runSteps [("coder")] boomOracle [coderStep] 0 demoCtx [] =
        ((runSteps [("coder")] boomOracle [] 1 demoCtx []).1,
         (runSteps [("coder")] boomOracle [] 1 demoCtx []).2.1,
         (coderStep.name, none) :: (runSteps [("coder")] boomOracle [] 1 demoCtx []).2.2)) :=
  ⟨rfl, failing_step_caught_and_skipped [("coder")] boomOracle coderStep [] 0 demoCtx []
    ("boom") rfl⟩

/-! ## Claim C2 -/

/-- Counterexample to claim C2: neither file sink rejects a path that
resolves outside the project root.  The tool sink uses the absolute path
`/etc/passwd` as-is (it does not resolve under the `project` root) and
writes it; the extractor sink writes the parent-escaping path
`../escape.py` with an empty error list. -/
theorem outside_root_path_written :
    (isAbsolutePath (str ("/etc/passwd")) = true ∧
      resolveToolPath (some (str ("project"))) (str ("/etc/passwd")) = str ("/etc/passwd") ∧
      strStartsWith (str ("/etc/passwd")) (str ("project")) = false ∧
      writeFileToolRun (some (str ("project"))) (str ("/etc/passwd")) (str ("x")) [] =
        [(str ("/etc/passwd"), str ("x"))]) ∧
    ((process_coder_output
        (str ("write_file(file_path=\"../escape.py\", content=\"x\")")) []).files_created =
      [str ("../escape.py")] ∧
    (process_coder_output
        (str ("write_file(file_path=\"../escape.py\", content=\"x\")")) []).errors = [] ∧
    fsGet (process_coder_output
        (str ("write_file(file_path=\"../escape.py\", content=\"x\")")) []).fs
      (str ("../escape.py")) = some (str ("x"))) := by
  decide

/-- Claim C2 as amended: the tool sink resolves relative paths under the
configured base directory and uses absolute paths as-is, and the
extractor sink uses paths as given; neither performs a containment check
against the project root — every resolved path (every non-protected path
in the extractor) is written successfully, with no error entry. -/
theorem no_outside_root_rejection :
    (∀ (base : Option Str) (file_path content : Str) (fs : Fs),
      fsGet (writeFileToolRun base file_path content fs) (resolveToolPath base file_path) =
        some content) ∧
    (∀ (st : ExtState) (p c : Str), isProtectedPath p = false →
      fsGet (write_file st p c).fs p = some c ∧ (write_file st p c).errors = st.errors) := by
  constructor
  · intro base file_path content fs
    unfold writeFileToolRun
    rw [fsGet_fsWrite, if_pos rfl]
  · intro st p c h
    refine ⟨write_file_fsGet_self h st c, ?_⟩
    rw [write_file_of_not_protected h]
    split <;> rfl

/-- Witness for the amended C2, at an absolute tool path and a
parent-escaping extractor path. -/
theorem no_outside_root_rejection_witness :
    (isProtectedPath (str ("../escape.py")) = false) ∧
    fsGet (writeFileToolRun (some (str ("project"))) (str ("/etc/passwd")) (str ("x")) [])
        (resolveToolPath (some (str ("project"))) (str ("/etc/passwd"))) = some (str ("x")) ∧
    (fsGet (write_file (initState []) (str ("../escape.py")) (str ("x"))).fs
        (str ("../escape.py")) = some (str ("x")) ∧
      (write_file (initState []) (str ("../escape.py")) (str ("x"))).errors =
        (initState []).errors) :=
  ⟨by decide,
    no_outside_root_rejection.1 (some (str ("project"))) (str ("/etc/passwd")) (str ("x")) [],
    no_outside_root_rejection.2 (initState []) (str ("../escape.py")) (str ("x")) (by decide)⟩

/-! ## Claim C3 -/

/-- Claim C3 (code bug): evaluated at the claim's exact scenario input,
the pipeline does not produce a single created mutation with content
`print('hi')`.  The triple-quote pattern extracts that content, but the
single-quote fallback pattern (documented in the source as the variant
for `content="..."` payloads) also matches the same call, with its
content group lazily ending at the quote before the first `)`, so
`app.py` is created with `print('hi')` and then immediately overwritten
(and classified as modified) with the garbled payload, which remains the
final content. -/
theorem scenario_single_call_divergence :
    process_coder_output
        (str ("write_file(file_path=\"app.py\", content=\"\"\"print('hi')\"\"\")")) [] =
      { files_created := [str ("app.py")], files_modified := [str ("app.py")],
        errors := [], fs := [(str ("app.py"), str ("\"\"print('hi"))] } := by
  decide

/-! ## Claim C4 -/

/-- Counterexample to claim C4: a strategy-2 candidate (fenced block
with a path comment) is written with its escaped quote sequence intact —
the unescaping step that the claim requires would have changed it — so
content is not normalized before writing for every strategy. -/
theorem strategy2_content_not_unescaped :
    fsGet (process_coder_output (str ("```python\n# a2.py\n  keep\\'s  \n```")) []).fs
        (str ("a2.py")) = some (str ("keep\\'s")) ∧
    replaceAll (str ("keep\\'s")) (str ("\\'")) (str ("'")) ≠ str ("keep\\'s") := by
  decide

/-- Every write performed by `_extract_file_sections`, for any input,
carries as content a verbatim contiguous slice of the input's lines,
joined back with newlines: the loop applies no transformation at all to
the block body between the fences. -/
lemma sectionsLoop_content_slice :
    ∀ (fuel : Nat) (lines : List Str) (i : Nat) (pc : Str × Str),
      pc ∈ sectionsLoop fuel lines i →
      ∃ a b, pc.2 = joinNl ((lines.drop a).take b)
  | 0, _, _, _, h => absurd h (List.not_mem_nil _)
  | fuel+1, lines, i, pc, h => by
    simp only [sectionsLoop] at h
    split at h
    · split at h
      · split at h
        · split at h
          · split at h
            · rcases List.mem_cons.mp h with heq | hmem
              · exact ⟨_, _, congrArg Prod.snd heq⟩
              · exact sectionsLoop_content_slice fuel lines _ pc hmem
            · exact sectionsLoop_content_slice fuel lines _ pc h
          · exact sectionsLoop_content_slice fuel lines _ pc h
        · exact sectionsLoop_content_slice fuel lines _ pc h
      · exact sectionsLoop_content_slice fuel lines _ pc h
    · exact absurd h (List.not_mem_nil _)

set_option maxRecDepth 40000 in
/-- Claim C4 as amended: full normalization (whitespace trim, unescaping
of quote sequences, fence-line stripping) is applied only to strategy-1
candidates, via `_clean_content`; strategy-2 candidates are only
whitespace-trimmed; strategy-3 candidates are written verbatim, without
even a trim.  Stated universally: every strategy-1 candidate is the
strip-then-`_clean_content` image of a pattern-1 or pattern-2 capture,
every strategy-2 candidate is exactly the stripped capture of the
fenced-block pattern with no further transformation, and every
strategy-3 candidate's content is a verbatim contiguous slice of the
input's lines.  A final concrete input exercising all three strategies
shows the three behaviors genuinely differ: the strategy-1 content is
stored unescaped and fence-stripped, the strategy-2 content keeps its
escape sequence, and the strategy-3 content keeps both escape sequence
and surrounding whitespace. -/
theorem normalization_only_in_strategy1 :
    (∀ (output : Str) (pc : Str × Str), pc ∈ method1Candidates output →
      ∃ caps, (caps ∈ finditer writeCallPat1 output ∨ caps ∈ finditer writeCallPat2 output) ∧
        pc = (pyStrip (capGet caps 1), clean_content (pyStrip (capGet caps 2)))) ∧
    (∀ (output : Str) (pc : Str × Str), pc ∈ method2Candidates output →
      ∃ caps, caps ∈ finditer codeBlockPat output ∧
        pc = (pyStrip (capGet caps 1), pyStrip (capGet caps 2))) ∧
    (∀ (output : Str) (pc : Str × Str), pc ∈ method3Candidates output →
      ∃ a b, pc.2 = joinNl (((splitNl output).drop a).take b)) ∧
    (clean_content (pyStrip (str ("```\n  no\\'s  \n```"))) = str ("  no's  ") ∧
    fsGet (process_coder_output
        (str ("write_file(file_path=\"a1.py\", content=\"```\n  no\\'s  \n```\")\n```python\n# a2.py\n  keep\\'s  \n```\n#### Mod (`a3.py`)\n```\n  raw \\' line  \n```")) []).fs
      (str ("a1.py")) = some (str ("  no's  ")) ∧
    fsGet (process_coder_output
        (str ("write_file(file_path=\"a1.py\", content=\"```\n  no\\'s  \n```\")\n```python\n# a2.py\n  keep\\'s  \n```\n#### Mod (`a3.py`)\n```\n  raw \\' line  \n```")) []).fs
      (str ("a2.py")) = some (str ("keep\\'s")) ∧
    fsGet (process_coder_output
        (str ("write_file(file_path=\"a1.py\", content=\"```\n  no\\'s  \n```\")\n```python\n# a2.py\n  keep\\'s  \n```\n#### Mod (`a3.py`)\n```\n  raw \\' line  \n```")) []).fs
      (str ("a3.py")) = some (str ("  raw \\' line  "))) := by
  refine ⟨?_, ?_, ?_, ?_⟩
  · intro output pc h
    simp only [method1Candidates] at h
    obtain ⟨caps, hcaps, heq⟩ := List.mem_map.mp h
    exact ⟨caps, List.mem_append.mp hcaps, heq.symm⟩
  · intro output pc h
    simp only [method2Candidates] at h
    obtain ⟨caps, hcaps, heq⟩ := List.mem_map.mp h
    exact ⟨caps, hcaps, heq.symm⟩
  · intro output pc h
    simp only [method3Candidates] at h
    exact sectionsLoop_content_slice _ _ _ pc h
  · decide

/-- Witness for the amended C4, applying each universal part at a
concrete candidate of the corresponding strategy. -/
theorem normalization_only_in_strategy1_witness :
    ((str ("a1.py"), str ("  no's  ")) ∈ method1Candidates
        (str ("write_file(file_path=\"a1.py\", content=\"```\n  no\\'s  \n```\")")) ∧
      ∃ caps, (caps ∈ finditer writeCallPat1
            (str ("write_file(file_path=\"a1.py\", content=\"```\n  no\\'s  \n```\")")) ∨
          caps ∈ finditer writeCallPat2
            (str ("write_file(file_path=\"a1.py\", content=\"```\n  no\\'s  \n```\")"))) ∧
        (str ("a1.py"), str ("  no's  ")) =
          (pyStrip (capGet caps 1), clean_content (pyStrip (capGet caps 2)))) ∧
    ((str ("a2.py"), str ("keep\\'s")) ∈ method2Candidates
        (str ("```python\n# a2.py\n  keep\\'s  \n```")) ∧
      ∃ caps, caps ∈ finditer codeBlockPat (str ("```python\n# a2.py\n  keep\\'s  \n```")) ∧
        (str ("a2.py"), str ("keep\\'s")) =
          (pyStrip (capGet caps 1), pyStrip (capGet caps 2))) ∧
    ((str ("a3.py"), str ("  raw \\' line  ")) ∈ method3Candidates
        (str ("#### Mod (`a3.py`)\n```\n  raw \\' line  \n```")) ∧
      ∃ a b, (str ("a3.py"), str ("  raw \\' line  ")).2 =
        joinNl (((splitNl (str ("#### Mod (`a3.py`)\n```\n  raw \\' line  \n```"))).drop a).take b)) :=
  ⟨⟨by decide, normalization_only_in_strategy1.1
      (str ("write_file(file_path=\"a1.py\", content=\"```\n  no\\'s  \n```\")"))
      (str ("a1.py"), str ("  no's  ")) (by decide)⟩,
   ⟨by decide, normalization_only_in_strategy1.2.1
      (str ("```python\n# a2.py\n  keep\\'s  \n```"))
      (str ("a2.py"), str ("keep\\'s")) (by decide)⟩,
   ⟨by decide, normalization_only_in_strategy1.2.2.1
      (str ("#### Mod (`a3.py`)\n```\n  raw \\' line  \n```"))
      (str ("a3.py"), str ("  raw \\' line  ")) (by decide)⟩⟩

/-! ## Claim C7 -/

/-- Counterexample to claim C7: a `.env` declaration written in the
triple-quoted form is matched by both patterns of strategy 1, so the run
appends two error entries referencing `.env`, not exactly one (while
still producing zero mutations). -/
theorem env_two_errors :
    process_coder_output (str ("write_file(file_path=\".env\", content=\"\"\"X\"\"\")")) [] =
      { files_created := [], files_modified := [],
        errors := [str ("Skipping protected file: .env"),
          str ("Skipping protected file: .env")],
        fs := [] } ∧
    (process_coder_output
        (str ("write_file(file_path=\".env\", content=\"\"\"X\"\"\")")) []).errors.length ≠ 1 := by
  decide

/-- Claim C7 as amended: every write attempt at `.env` produces no
mutation and appends exactly one error entry referencing `.env`, so a
text whose `.env` declaration is matched once (for example the
single-quoted form) yields zero mutations and exactly one error entry;
a declaration matched by several patterns yields one entry per match. -/
theorem env_rejected_per_occurrence :
    (∀ (st : ExtState) (content : Str),
      (write_file st (str (".env")) content).fs = st.fs ∧
      (write_file st (str (".env")) content).files_created = st.files_created ∧
      (write_file st (str (".env")) content).files_modified = st.files_modified ∧
      (write_file st (str (".env")) content).errors =
        st.errors ++ [str ("Skipping protected file: .env")]) ∧
    process_coder_output (str ("write_file(file_path=\".env\", content=\"X=1\")")) [] =
      { files_created := [], files_modified := [],
        errors := [str ("Skipping protected file: .env")], fs := [] } := by
  constructor
  · intro st content
    rw [write_file_of_protected (by decide)]
    have hmsg : protectedMsg (str (".env")) = str ("Skipping protected file: .env") := by
      decide
    rw [hmsg]
    exact ⟨rfl, rfl, rfl, rfl⟩
  · decide

/-! ## Claim C10 -/

/-- Claim C10: protected-suffix matching is a raw character-suffix test,
not a path-component test.  The path `domain.py` is not itself in the
protected set and its only path component is `domain.py`, yet its
character string ends with the entry `main.py`, so its write is rejected
as a protected-file error and nothing is written. -/
theorem protected_suffix_is_raw_character_match :
    str ("domain.py") ∉ PROTECTED_FILES ∧
    strEndsWith (str ("domain.py")) (str ("main.py")) = true ∧
    process_coder_output (str ("write_file(file_path=\"domain.py\", content=\"x\")")) [] =
      { files_created := [], files_modified := [],
        errors := [str ("Skipping protected file: domain.py")], fs := [] } := by
  decide

end Clankers
